import Mathlib

/-!
Shallow embedding of `src/script.py` (a single-file web-page change watcher)
and verification of its specification claims.

Python strings are modelled as `List Char`.  The functions `normalize_text`,
`make_hash`, `get_last_snapshot`, `save_snapshot`, `send_email`,
`generate_diff` (including the parts of `difflib` it uses) and `main` are
translated from the source.  External effects (HTTP fetch, the file system,
SMTP transport, the clock) enter as explicit parameters: `main` receives the
extracted page text, the prior state of the snapshot file, and a flag telling
whether the SMTP send succeeds (the Python call raises on failure).
-/

namespace PageWatcher

/-- The line-break characters recognised by Python `str.splitlines`. -/
def isLineBreak (c : Char) : Bool :=
  let n := c.toNat
  n = 10 || n = 11 || n = 12 || n = 13 || n = 28 || n = 29 || n = 30 ||
    n = 133 || n = 8232 || n = 8233

/-- The whitespace characters stripped by Python `str.strip()`
(ASCII whitespace, the C1 and Unicode space separators). -/
def isPySpace (c : Char) : Bool :=
  let n := c.toNat
  (9 ≤ n && n ≤ 13) || (28 ≤ n && n ≤ 31) || n = 32 || n = 133 || n = 160 ||
    n = 5760 || (8192 ≤ n && n ≤ 8202) || n = 8232 || n = 8233 ||
    n = 8239 || n = 8287 || n = 12288

/-- Worker for `splitlines`: `acc` holds the current line, reversed.
A `"\r\n"` pair counts as a single break; at the end of the input the
pending line is emitted only if it is nonempty (Python semantics: a
trailing newline does not produce an extra empty line). -/
def splitlinesAux : List Char → List Char → List (List Char)
  | [], acc => if acc = [] then [] else [acc.reverse]
  | '\u000d' :: '\u000a' :: rest, acc => acc.reverse :: splitlinesAux rest []
  | c :: rest, acc =>
    if isLineBreak c then acc.reverse :: splitlinesAux rest []
    else splitlinesAux rest (c :: acc)

/-- Python `str.splitlines()` (keepends = False). -/
def splitlines (t : List Char) : List (List Char) :=
  splitlinesAux t []

/-- Python `str.lstrip()`. -/
def lstrip (l : List Char) : List Char :=
  l.dropWhile isPySpace

/-- Python `str.rstrip()` (`rdropWhile p l` is `(l.reverse.dropWhile p).reverse`). -/
def rstrip (l : List Char) : List Char :=
  l.rdropWhile isPySpace

/-- Python `str.strip()`. -/
def strip (l : List Char) : List Char :=
  rstrip (lstrip l)

/-- `normalize_text` from `src/script.py` lines 70-76: strip every line,
drop the lines that became empty, rejoin with a single newline. -/
def normalize_text (text : List Char) : List Char :=
  let lines := (splitlines text).map (fun line => strip line)
  let lines2 := lines.filter (fun ln => ln ≠ [])
  List.intercalate ['\u000a'] lines2

/-- Modelled from the spec (§4.2): "split into lines, trim leading/trailing
whitespace per line, discard lines that become empty, rejoin with a single
newline separator."  Reference definition for the refinement claim C7. -/
def normalizeReference (text : List Char) : List Char :=
  List.intercalate ['\u000a']
    (((splitlines text).map strip).filter (fun l => l ≠ []))

/-! ## SHA-256 (`hashlib.sha256(...).hexdigest()` over the UTF-8 encoding) -/

/-- UTF-8 encoding of a single scalar value, as byte values. -/
def utf8Char (c : Char) : List Nat :=
  let n := c.toNat
  if n < 128 then [n]
  else if n < 2048 then [192 + n / 64, 128 + n % 64]
  else if n < 65536 then [224 + n / 4096, 128 + (n / 64) % 64, 128 + n % 64]
  else [240 + n / 262144, 128 + (n / 4096) % 64, 128 + (n / 64) % 64,
        128 + n % 64]

/-- UTF-8 encoding of a string (Python `s.encode("utf-8")`). -/
def utf8Encode (s : List Char) : List Nat :=
  (s.map utf8Char).flatten

/-- Addition modulo 2^32. -/
def addm (a b : Nat) : Nat := (a + b) % 4294967296

/-- Right rotation of a 32-bit word. -/
def rotr (k n : Nat) : Nat := ((n >>> k) ||| (n <<< (32 - k))) % 4294967296

def bigSigma0 (x : Nat) : Nat := (rotr 2 x) ^^^ (rotr 13 x) ^^^ (rotr 22 x)
def bigSigma1 (x : Nat) : Nat := (rotr 6 x) ^^^ (rotr 11 x) ^^^ (rotr 25 x)
def smallSigma0 (x : Nat) : Nat := (rotr 7 x) ^^^ (rotr 18 x) ^^^ (x >>> 3)
def smallSigma1 (x : Nat) : Nat := (rotr 17 x) ^^^ (rotr 19 x) ^^^ (x >>> 10)
def chf (x y z : Nat) : Nat := (x &&& y) ^^^ ((x ^^^ 4294967295) &&& z)
def majf (x y z : Nat) : Nat := (x &&& y) ^^^ (x &&& z) ^^^ (y &&& z)

/-- The SHA-256 round constants (FIPS 180-4 `K₀…K₆₃`, written in decimal). -/
def shaK : List Nat :=
  [1116352408, 1899447441, 3049323471, 3921009573,
   961987163, 1508970993, 2453635748, 2870763221,
   3624381080, 310598401, 607225278, 1426881987,
   1925078388, 2162078206, 2614888103, 3248222580,
   3835390401, 4022224774, 264347078, 604807628,
   770255983, 1249150122, 1555081692, 1996064986,
   2554220882, 2821834349, 2952996808, 3210313671,
   3336571891, 3584528711, 113926993, 338241895,
   666307205, 773529912, 1294757372, 1396182291,
   1695183700, 1986661051, 2177026350, 2456956037,
   2730485921, 2820302411, 3259730800, 3345764771,
   3516065817, 3600352804, 4094571909, 275423344,
   430227734, 506948616, 659060556, 883997877,
   958139571, 1322822218, 1537002063, 1747873779,
   1955562222, 2024104815, 2227730452, 2361852424,
   2428436474, 2756734187, 3204031479, 3329325298]

/-- SHA-256 working state / digest state. -/
structure H8 where
  h0 : Nat
  h1 : Nat
  h2 : Nat
  h3 : Nat
  h4 : Nat
  h5 : Nat
  h6 : Nat
  h7 : Nat
deriving DecidableEq

/-- The initial SHA-256 digest state (FIPS 180-4 `H⁰`, in decimal). -/
def shaInit : H8 :=
  ⟨1779033703, 3144134277, 1013904242, 2773480762,
   1359893119, 2600822924, 528734635, 1541459225⟩

/-- Group bytes into big-endian 32-bit words. -/
def toWords : List Nat → List Nat
  | b0 :: b1 :: b2 :: b3 :: rest =>
      (b0 * 16777216 + b1 * 65536 + b2 * 256 + b3) :: toWords rest
  | _ => []

/-- Extend the 16 block words to the 64-word schedule; `wrev` is the words
produced so far, newest first; `n` counts the remaining extension steps. -/
def scheduleExtend : Nat → List Nat → List Nat
  | 0, wrev => wrev
  | n + 1, wrev =>
      scheduleExtend n
        (addm (smallSigma1 (wrev.getD 1 0))
          (addm (wrev.getD 6 0)
            (addm (smallSigma0 (wrev.getD 14 0)) (wrev.getD 15 0))) :: wrev)

def schedule (w16 : List Nat) : List Nat :=
  (scheduleExtend 48 w16.reverse).reverse

/-- One SHA-256 round. -/
def roundStep (st : H8) (wk : Nat × Nat) : H8 :=
  let t1 := addm st.h7
    (addm (bigSigma1 st.h4) (addm (chf st.h4 st.h5 st.h6) (addm wk.2 wk.1)))
  let t2 := addm (bigSigma0 st.h0) (majf st.h0 st.h1 st.h2)
  ⟨addm t1 t2, st.h0, st.h1, st.h2, addm st.h3 t1, st.h4, st.h5, st.h6⟩

/-- Compress one 64-byte block into the digest state. -/
def compress (st : H8) (block : List Nat) : H8 :=
  let w := schedule (toWords block)
  let f := (w.zip shaK).foldl roundStep st
  ⟨addm st.h0 f.h0, addm st.h1 f.h1, addm st.h2 f.h2, addm st.h3 f.h3,
   addm st.h4 f.h4, addm st.h5 f.h5, addm st.h6 f.h6, addm st.h7 f.h7⟩

/-- Big-endian bytes of the 64-bit message length. -/
def lengthBytes (n : Nat) : List Nat :=
  [(n >>> 56) % 256, (n >>> 48) % 256, (n >>> 40) % 256, (n >>> 32) % 256,
   (n >>> 24) % 256, (n >>> 16) % 256, (n >>> 8) % 256, n % 256]

/-- SHA-256 padding: `0x80`, zeros to 56 mod 64, then the bit length. -/
def shaPad (msg : List Nat) : List Nat :=
  let l := msg.length
  msg ++ [128] ++ List.replicate ((119 - l % 64) % 64) 0 ++ lengthBytes (8 * l)

/-- Process the padded message 64 bytes at a time.  The fuel only bounds the
number of blocks; every step consumes 64 bytes, so `length + 1` suffices. -/
def processBlocks : Nat → List Nat → H8 → H8
  | 0, _, st => st
  | fuel + 1, bytes, st =>
    match bytes with
    | [] => st
    | _ => processBlocks fuel (bytes.drop 64) (compress st (bytes.take 64))

def hexDigit (n : Nat) : Char :=
  if n < 10 then Char.ofNat (48 + n) else Char.ofNat (87 + n)

/-- Lowercase hexadecimal spelling of one 32-bit word. -/
def wordHex (w : Nat) : List Char :=
  [hexDigit ((w >>> 28) % 16), hexDigit ((w >>> 24) % 16),
   hexDigit ((w >>> 20) % 16), hexDigit ((w >>> 16) % 16),
   hexDigit ((w >>> 12) % 16), hexDigit ((w >>> 8) % 16),
   hexDigit ((w >>> 4) % 16), hexDigit (w % 16)]

/-- `hashlib.sha256(bytes).hexdigest()`. -/
def sha256hex (msg : List Nat) : List Char :=
  let padded := shaPad msg
  let d := processBlocks (padded.length + 1) padded shaInit
  wordHex d.h0 ++ wordHex d.h1 ++ wordHex d.h2 ++ wordHex d.h3 ++
    wordHex d.h4 ++ wordHex d.h5 ++ wordHex d.h6 ++ wordHex d.h7

/-- `make_hash` from `src/script.py` lines 78-79. -/
def make_hash (s : List Char) : List Char :=
  sha256hex (utf8Encode s)

/-! ## `difflib.unified_diff` (CPython's `difflib`, as used by `generate_diff`)

`SequenceMatcher(None, a, b)`: since `isjunk` is `None` the junk set `bjunk`
is empty; the autojunk rule still purges "popular" elements from `b2j` when
`b` has at least 200 elements.  Dictionaries are modelled as association
lists (`alookup`/`alset`); only lookups and updates are performed on them,
so iteration order never matters. -/

/-- Decimal digits of a natural number; the fuel (≥ number of digits,
`n + 1` always suffices since `n / 10 < n` for positive `n`). -/
def natToCharsAux : Nat → Nat → List Char
  | 0, _ => []
  | fuel + 1, n =>
    if n < 10 then [Char.ofNat (48 + n)]
    else natToCharsAux fuel (n / 10) ++ [Char.ofNat (48 + n % 10)]

/-- Python `str(n)` for a natural number. -/
def natToChars (n : Nat) : List Char := natToCharsAux (n + 1) n

/-- Association-list lookup (Python `dict.get`). -/
def alookup {α β : Type} [DecidableEq α] : List (α × β) → α → Option β
  | [], _ => none
  | (k, v) :: rest, key => if k = key then some v else alookup rest key

/-- Association-list update (Python `dict[k] = v`). -/
def alset {α β : Type} [DecidableEq α] : List (α × β) → α → β → List (α × β)
  | [], k, v => [(k, v)]
  | (k', v') :: rest, k, v =>
    if k' = k then (k, v) :: rest else (k', v') :: alset rest k v

/-- `l[i]` for a list of lines with an in-range index. -/
def getLine (l : List (List Char)) (i : Nat) : List Char := l.getD i []

/-- `SequenceMatcher` state: the two line sequences, the purged `b2j`
index map and the junk set (always empty here: `isjunk` is `None`). -/
structure SM where
  a : List (List Char)
  b : List (List Char)
  b2j : List (List Char × List Nat)
  bjunk : List (List Char)

/-- Append index `i` to the `b2j` entry of line `k` (Python
`b2j.setdefault(elt, []).append(i)`). -/
def b2jInsert : List (List Char × List Nat) → List Char → Nat →
    List (List Char × List Nat)
  | [], k, i => [(k, [i])]
  | (k', v) :: rest, k, i =>
    if k' = k then (k', v ++ [i]) :: rest else (k', v) :: b2jInsert rest k i

def b2jAux : Nat → List (List Char) → List (List Char × List Nat) →
    List (List Char × List Nat)
  | _, [], d => d
  | i, line :: rest, d => b2jAux (i + 1) rest (b2jInsert d line i)

/-- `SequenceMatcher.__chain_b` for `isjunk = None`: build `b2j`, and when
`b` has at least 200 elements purge the popular entries (autojunk).  The
junk set stays empty because `isjunk` is `None`. -/
def mkSM (a b : List (List Char)) : SM :=
  let b2j0 := b2jAux 0 b []
  let n := b.length
  let b2j1 :=
    if 200 ≤ n then
      let ntest := n / 100 + 1
      b2j0.filter (fun e => decide (e.2.length ≤ ntest))
    else b2j0
  ⟨a, b, b2j1, []⟩

def isbjunk (sm : SM) (line : List Char) : Bool := decide (line ∈ sm.bjunk)

/-- Inner loop of `find_longest_match` over the `b2j` indices of `a[i]`:
`continue` on `j < blo`, `break` on `j ≥ bhi` (the index lists ascend);
`newj2len` is being built while `j2len` is the map from the previous `i`.
Python's `i-k+1`/`j-k+1` are written `i+1-k`/`j+1-k` (equal, since
`k ≤ min i j + 1` whenever the entry exists). -/
def innerLoop (j2len : List (Nat × Nat)) (blo bhi i : Nat) :
    List Nat → List (Nat × Nat) → Nat → Nat → Nat →
    List (Nat × Nat) × Nat × Nat × Nat
  | [], newj2len, besti, bestj, bestsize => (newj2len, besti, bestj, bestsize)
  | j :: js, newj2len, besti, bestj, bestsize =>
    if j < blo then innerLoop j2len blo bhi i js newj2len besti bestj bestsize
    else if bhi ≤ j then (newj2len, besti, bestj, bestsize)
    else
      let k := (if j = 0 then 0 else (alookup j2len (j - 1)).getD 0) + 1
      if bestsize < k then
        innerLoop j2len blo bhi i js (alset newj2len j k) (i + 1 - k)
          (j + 1 - k) k
      else
        innerLoop j2len blo bhi i js (alset newj2len j k) besti bestj bestsize

/-- Outer loop of `find_longest_match` over `i ∈ range(alo, ahi)`; the state
is `(j2len, besti, bestj, bestsize)`. -/
def flmLoop (sm : SM) (blo bhi : Nat) :
    List Nat → List (Nat × Nat) × Nat × Nat × Nat →
    List (Nat × Nat) × Nat × Nat × Nat
  | [], st => st
  | i :: rest, st =>
    let js := (alookup sm.b2j (getLine sm.a i)).getD []
    flmLoop sm blo bhi rest (innerLoop st.1 blo bhi i js [] st.2.1 st.2.2.1 st.2.2.2)

/-- The two "extend backwards" while-loops of `find_longest_match` (`junk`
selects the non-junk or the junk variant).  Each iteration decrements
`besti` and the guard keeps `besti > alo`, so `besti` iterations suffice;
the fuel is instantiated with `besti` at the call site. -/
def extHead (sm : SM) (alo blo : Nat) (junk : Bool) :
    Nat → Nat → Nat → Nat → Nat × Nat × Nat
  | 0, besti, bestj, bestsize => (besti, bestj, bestsize)
  | fuel + 1, besti, bestj, bestsize =>
    if alo < besti ∧ blo < bestj ∧
        isbjunk sm (getLine sm.b (bestj - 1)) = junk ∧
        getLine sm.a (besti - 1) = getLine sm.b (bestj - 1) then
      extHead sm alo blo junk fuel (besti - 1) (bestj - 1) (bestsize + 1)
    else (besti, bestj, bestsize)

/-- The two "extend forwards" while-loops of `find_longest_match`.  Each
iteration increments `bestsize` and the guard keeps
`besti + bestsize < ahi`, so `ahi` iterations suffice; the fuel is
instantiated with `ahi` at the call site. -/
def extTail (sm : SM) (ahi bhi : Nat) (junk : Bool) :
    Nat → Nat → Nat → Nat → Nat × Nat × Nat
  | 0, besti, bestj, bestsize => (besti, bestj, bestsize)
  | fuel + 1, besti, bestj, bestsize =>
    if besti + bestsize < ahi ∧ bestj + bestsize < bhi ∧
        isbjunk sm (getLine sm.b (bestj + bestsize)) = junk ∧
        getLine sm.a (besti + bestsize) = getLine sm.b (bestj + bestsize) then
      extTail sm ahi bhi junk fuel besti bestj (bestsize + 1)
    else (besti, bestj, bestsize)

/-- `SequenceMatcher.find_longest_match` on `a[alo:ahi]` / `b[blo:bhi]`. -/
def find_longest_match (sm : SM) (alo ahi blo bhi : Nat) : Nat × Nat × Nat :=
  let st := flmLoop sm blo bhi (List.range' alo (ahi - alo)) ([], alo, blo, 0)
  let p1 := extHead sm alo blo false st.2.1 st.2.1 st.2.2.1 st.2.2.2
  let p2 := extTail sm ahi bhi false ahi p1.1 p1.2.1 p1.2.2
  let p3 := extHead sm alo blo true p2.1 p2.1 p2.2.1 p2.2.2
  extTail sm ahi bhi true ahi p3.1 p3.2.1 p3.2.2

/-- The recursive block collection of `get_matching_blocks` (difflib uses an
explicit work queue and sorts afterwards; since the final list is sorted,
collecting left-to-right is equivalent).  The fuel bounds the recursion
depth: `find_longest_match` returns a block inside the given ranges, so each
recursive call strictly shrinks `(ahi - alo) + (bhi - blo)` and the initial
value `la + lb + 1` suffices. -/
def blocksRec (sm : SM) : Nat → Nat → Nat → Nat → Nat → List (Nat × Nat × Nat)
  | 0, _, _, _, _ => []
  | fuel + 1, alo, ahi, blo, bhi =>
    let r := find_longest_match sm alo ahi blo bhi
    let i := r.1
    let j := r.2.1
    let k := r.2.2
    if k = 0 then []
    else
      (if alo < i ∧ blo < j then blocksRec sm fuel alo i blo j else []) ++
      [(i, j, k)] ++
      (if i + k < ahi ∧ j + k < bhi then blocksRec sm fuel (i + k) ahi (j + k) bhi
       else [])

/-- Lexicographic order on match triples (Python tuple `sort`). -/
def blockLe (x y : Nat × Nat × Nat) : Bool :=
  decide (x.1 < y.1 ∨ (x.1 = y.1 ∧
    (x.2.1 < y.2.1 ∨ (x.2.1 = y.2.1 ∧ x.2.2 ≤ y.2.2))))

def insertBlock (x : Nat × Nat × Nat) :
    List (Nat × Nat × Nat) → List (Nat × Nat × Nat)
  | [] => [x]
  | y :: rest => if blockLe x y then x :: y :: rest else y :: insertBlock x rest

def sortBlocks (l : List (Nat × Nat × Nat)) : List (Nat × Nat × Nat) :=
  l.foldr insertBlock []

/-- Collapse adjacent blocks (the `non_adjacent` pass of
`get_matching_blocks`), starting from `(0, 0, 0)`. -/
def mergeBlocks : Nat × Nat × Nat → List (Nat × Nat × Nat) →
    List (Nat × Nat × Nat)
  | (i1, j1, k1), [] => if k1 ≠ 0 then [(i1, j1, k1)] else []
  | (i1, j1, k1), (i2, j2, k2) :: rest =>
    if i1 + k1 = i2 ∧ j1 + k1 = j2 then mergeBlocks (i1, j1, k1 + k2) rest
    else (if k1 ≠ 0 then [(i1, j1, k1)] else []) ++ mergeBlocks (i2, j2, k2) rest

/-- `SequenceMatcher.get_matching_blocks`, ending with the `(la, lb, 0)`
sentinel. -/
def get_matching_blocks (sm : SM) : List (Nat × Nat × Nat) :=
  let la := sm.a.length
  let lb := sm.b.length
  mergeBlocks (0, 0, 0) (sortBlocks (blocksRec sm (la + lb + 1) 0 la 0 lb)) ++
    [(la, lb, 0)]

/-- Opcode tags of `get_opcodes`. -/
inductive Tag where
  | replace
  | delete
  | insert
  | eql
deriving DecidableEq

/-- One opcode `(tag, i1, i2, j1, j2)`. -/
structure Op where
  tag : Tag
  i1 : Nat
  i2 : Nat
  j1 : Nat
  j2 : Nat
deriving DecidableEq

def opcodesLoop : Nat → Nat → List (Nat × Nat × Nat) → List Op
  | _, _, [] => []
  | i, j, (ai, bj, size) :: rest =>
    (if i < ai ∧ j < bj then [Op.mk .replace i ai j bj]
     else if i < ai then [Op.mk .delete i ai j bj]
     else if j < bj then [Op.mk .insert i ai j bj]
     else []) ++
    (if size ≠ 0 then [Op.mk .eql ai (ai + size) bj (bj + size)] else []) ++
    opcodesLoop (ai + size) (bj + size) rest

/-- `SequenceMatcher.get_opcodes`. -/
def get_opcodes (sm : SM) : List Op :=
  opcodesLoop 0 0 (get_matching_blocks sm)

/-- Truncate a leading `equal` opcode to at most `n` lines of context. -/
def adjustFirst (n : Nat) : List Op → List Op
  | [] => []
  | op :: rest =>
    (if op.tag = .eql then
      { op with i1 := max op.i1 (op.i2 - n), j1 := max op.j1 (op.j2 - n) }
     else op) :: rest

/-- Truncate a trailing `equal` opcode to at most `n` lines of context. -/
def adjustLast (n : Nat) : List Op → List Op
  | [] => []
  | [op] =>
    [if op.tag = .eql then
      { op with i2 := min op.i2 (op.i1 + n), j2 := min op.j2 (op.j1 + n) }
     else op]
  | op :: rest => op :: adjustLast n rest

/-- The grouping loop of `get_grouped_opcodes`: split at interior `equal`
opcodes longer than `2n` and drop a final group that is a single `equal`. -/
def groupLoop (n : Nat) : List Op → List Op → List (List Op)
  | group, [] =>
    if group ≠ [] ∧ ¬(group.length = 1 ∧ (group.headD ⟨.eql, 0, 0, 0, 0⟩).tag = .eql)
    then [group] else []
  | group, op :: rest =>
    if op.tag = .eql ∧ 2 * n < op.i2 - op.i1 then
      (group ++ [{ op with i2 := min op.i2 (op.i1 + n), j2 := min op.j2 (op.j1 + n) }]) ::
        groupLoop n [{ op with i1 := max op.i1 (op.i2 - n), j1 := max op.j1 (op.j2 - n) }] rest
    else groupLoop n (group ++ [op]) rest

/-- `SequenceMatcher.get_grouped_opcodes` with context size `n`. -/
def get_grouped_opcodes (sm : SM) (n : Nat) : List (List Op) :=
  let codes0 := get_opcodes sm
  let codes1 := if codes0 = [] then [Op.mk .eql 0 1 0 1] else codes0
  groupLoop n [] (adjustLast n (adjustFirst n codes1))

/-- `difflib._format_range_unified`. -/
def formatRangeUnified (start stop : Nat) : List Char :=
  let len := stop - start
  if len = 1 then natToChars (start + 1)
  else natToChars (if len = 0 then start else start + 1) ++ [','] ++ natToChars len

/-- Python slice `l[i:j]`. -/
def slice (l : List (List Char)) (i j : Nat) : List (List Char) :=
  (l.take j).drop i

/-- The per-opcode line emission of `unified_diff` (replace emits the `-`
lines before the `+` lines). -/
def emitOp (a b : List (List Char)) (op : Op) : List (List Char) :=
  match op.tag with
  | .eql => (slice a op.i1 op.i2).map (fun l => ' ' :: l)
  | .delete => (slice a op.i1 op.i2).map (fun l => '-' :: l)
  | .insert => (slice b op.j1 op.j2).map (fun l => '+' :: l)
  | .replace =>
    (slice a op.i1 op.i2).map (fun l => '-' :: l) ++
      (slice b op.j1 op.j2).map (fun l => '+' :: l)

/-- The `@@ -r +r @@` header of one hunk. -/
def hunkHeader (g : List Op) : List Char :=
  let f := g.headD ⟨.eql, 0, 0, 0, 0⟩
  let l := g.getLastD ⟨.eql, 0, 0, 0, 0⟩
  ("@@ -").toList ++ formatRangeUnified f.i1 l.i2 ++ (" +").toList ++
    formatRangeUnified f.j1 l.j2 ++ (" @@").toList

/-- `difflib.unified_diff(a, b, lineterm="")` with default file names and
dates: the `---`/`+++` headers appear once, before the first group, and not
at all when there is no group. -/
def unifiedDiff (a b : List (List Char)) : List (List Char) :=
  let sm := mkSM a b
  let groups := get_grouped_opcodes sm 3
  match groups with
  | [] => []
  | _ =>
    ("--- ").toList :: ("+++ ").toList ::
      groups.flatMap (fun g => hunkHeader g :: g.flatMap (emitOp a b))

/-- The old side of `generate_diff`: `old.splitlines() if old else []`
(both `None` and the empty string are falsy). -/
def oldLines : Option (List Char) → List (List Char)
  | none => []
  | some o => if o = [] then [] else splitlines o

/-- The diff of `generate_diff` as a list of lines, before joining. -/
def diffLines (old : Option (List Char)) (new : List Char) : List (List Char) :=
  unifiedDiff (oldLines old) (splitlines new)

/-- `generate_diff` from `src/script.py` lines 114-118. -/
def generate_diff (old : Option (List Char)) (new : List Char) : List Char :=
  List.intercalate ['\u000a'] (diffLines old new)

/-! ## Snapshot store, notifier and orchestrator -/

/-- The configuration constants the pure part of the pipeline consumes
(`URL`, `CSS_SELECTOR`, `FROM_EMAIL`, `TO_EMAIL`), plus the value
`time.ctime()` returns during the run.  SMTP host/port/credentials only
affect the transport, which is modelled by the `mailOk` flag of `main`. -/
structure Config where
  url : List Char
  css_selector : List Char
  from_email : List Char
  to_email : List Char
  ctime : List Char
deriving DecidableEq

/-- A composed email message (sender, recipient, subject, body). -/
structure EmailMsg where
  msgFrom : List Char
  msgTo : List Char
  msgSubject : List Char
  msgContent : List Char
deriving DecidableEq

/-- The message composition of `send_email` (`src/script.py` lines 100-112):
the body is the summary followed by the diff under a `--- DIFF ---` heading
when `diff_text` is supplied and non-empty (Python truthiness).  The SMTP
transport (`starttls`, `login`, `send_message`) either succeeds or raises;
that outcome is the `mailOk` parameter of `main`. -/
def send_email (cfg : Config) (subject body : List Char)
    (diff_text : Option (List Char)) : EmailMsg :=
  let body_full :=
    match diff_text with
    | none => body
    | some d =>
      if d = [] then body else body ++ ("\n\n--- DIFF ---\n").toList ++ d
  ⟨cfg.from_email, cfg.to_email, subject, body_full⟩

/-- `get_last_snapshot` (`src/script.py` lines 81-90).  The snapshot file is
an `Option (List Char)`: `none` when the file does not exist.  Returns
`(None, None)` for a missing file, otherwise the content together with its
recomputed hash. -/
def get_last_snapshot (file : Option (List Char)) :
    Option (List Char) × Option (List Char) :=
  match file with
  | none => (none, none)
  | some content => (some content, some (make_hash content))

/-- `save_snapshot` (`src/script.py` lines 92-98): overwrite the snapshot
file with the given content (the hash argument is unused by the source, and
the "timestamped backup copy" of its docstring is not implemented). -/
def save_snapshot (content : List Char) (_h : List Char) : Option (List Char) :=
  some content

/-- Observable outcome of one `main` run: which branch was taken, what was
printed (`none` when the run aborted with an exception), the resulting
snapshot-file state, the successfully sent email, and the computed diff. -/
structure MainResult where
  changed : Bool
  printed : Option (List Char)
  file : Option (List Char)
  sent : Option EmailMsg
  diff : Option (List Char)
deriving DecidableEq

/-- `main` (`src/script.py` lines 121-139).  `text` is the text extracted by
`fetch_content` before its final `normalize_text` call; `file0` is the
snapshot file's state when the run starts; `mailOk` tells whether the SMTP
send succeeds.  When the send raises, the run aborts: `save_snapshot` and
the final `print` are never reached, so the file keeps its prior state. -/
def main (cfg : Config) (text : List Char) (file0 : Option (List Char))
    (mailOk : Bool) : MainResult :=
  let content := normalize_text text
  let h := make_hash content
  let snap := get_last_snapshot file0
  let old_content := snap.1
  let old_hash := snap.2
  if old_hash ≠ some h then
    let diff := generate_diff old_content content
    let subject := ("[PageWatcher] Change detected: ").toList ++ cfg.url
    let body :=
      ("Change detected at ").toList ++ cfg.ctime ++ (" for ").toList ++
        cfg.url ++ ("\nSelector: ").toList ++
        (if cfg.css_selector = [] then ("(whole page)").toList
         else cfg.css_selector) ++
        ("\nHash: ").toList ++ h ++ ("\n").toList
    if mailOk then
      { changed := true,
        printed := some ("Change detected -> email sent").toList,
        file := save_snapshot content h,
        sent := some (send_email cfg subject body (some diff)),
        diff := some diff }
    else
      { changed := true, printed := none, file := file0, sent := none,
        diff := some diff }
  else
    { changed := false, printed := some ("No change").toList, file := file0,
      sent := none, diff := none }

/-- A sample configuration, used to instantiate universally quantified
theorems at concrete inputs. -/
def cfgA : Config :=
  ⟨("http://example.com").toList, [], ("from@example.com").toList,
   ("to@example.com").toList, ("Mon Jan  1 00:00:00 2026").toList⟩

/-! ## Helper lemmas: `splitlines` and `strip` -/

theorem splitlinesAux_newline (rest acc : List Char) :
    splitlinesAux ('\u000a' :: rest) acc =
      acc.reverse :: splitlinesAux rest [] := by
  rw [splitlinesAux.eq_3 acc '\u000a' rest (by intro r h1 _; cases h1)]
  rw [if_pos (by decide)]

theorem splitlinesAux_nonbreak (c : Char) (rest acc : List Char)
    (hc : isLineBreak c = false) :
    splitlinesAux (c :: rest) acc = splitlinesAux rest (c :: acc) := by
  have hr : ∀ (r : List Char), c = '\u000d' → rest = '\u000a' :: r → False := by
    intro r h1 _
    rw [h1] at hc
    exact absurd hc (by decide)
  rw [splitlinesAux.eq_3 acc c rest hr, if_neg (by simp [hc])]

theorem splitlinesAux_append (l rest acc : List Char)
    (hl : ∀ c ∈ l, isLineBreak c = false) :
    splitlinesAux (l ++ rest) acc = splitlinesAux rest (l.reverse ++ acc) := by
  induction l generalizing acc with
  | nil => simp
  | cons c l ih =>
    rw [List.cons_append, splitlinesAux_nonbreak c (l ++ rest) acc
      (hl c (List.mem_cons_self _ _))]
    rw [ih (c :: acc) (fun x hx => hl x (List.mem_cons_of_mem c hx))]
    simp

theorem intercalate_single_pw (s a : List Char) :
    List.intercalate s [a] = a := by
  simp [List.intercalate, List.intersperse]

theorem intercalate_cons₂_pw (s a b : List Char) (t : List (List Char)) :
    List.intercalate s (a :: b :: t) = a ++ s ++ List.intercalate s (b :: t) := by
  simp [List.intercalate, List.intersperse]

/-- `splitlines` is a left inverse of joining with `"\n"`, for nonempty
lines free of line-break characters. -/
theorem splitlines_intercalate (ls : List (List Char))
    (h : ∀ l ∈ ls, l ≠ [] ∧ ∀ c ∈ l, isLineBreak c = false) :
    splitlines (List.intercalate ['\u000a'] ls) = ls := by
  induction ls with
  | nil => rfl
  | cons l ls ih =>
    match ls with
    | [] =>
      have hl := h l (List.mem_cons_self _ _)
      rw [intercalate_single_pw]
      unfold splitlines
      have hstep := splitlinesAux_append l [] [] hl.2
      rw [List.append_nil] at hstep
      rw [hstep, splitlinesAux.eq_1]
      rw [if_neg (by simp [hl.1]), List.append_nil, List.reverse_reverse]
    | l2 :: ls2 =>
      have hl := h l (List.mem_cons_self _ _)
      rw [intercalate_cons₂_pw, List.append_assoc]
      unfold splitlines
      rw [splitlinesAux_append l
        (['\u000a'] ++ List.intercalate ['\u000a'] (l2 :: ls2)) [] hl.2]
      rw [List.singleton_append, splitlinesAux_newline]
      rw [List.append_nil, List.reverse_reverse]
      have hind := ih (fun x hx => h x (List.mem_cons_of_mem l hx))
      unfold splitlines at hind
      rw [hind]

theorem splitlinesAux_breakFree (t acc : List Char)
    (hacc : ∀ c ∈ acc, isLineBreak c = false) :
    ∀ l ∈ splitlinesAux t acc, ∀ c ∈ l, isLineBreak c = false := by
  induction t, acc using splitlinesAux.induct with
  | case1 =>
    rw [splitlinesAux.eq_1, if_pos rfl]
    intro l hl
    cases hl
  | case2 acc hne =>
    rw [splitlinesAux.eq_1, if_neg hne]
    intro l hl c hc
    rw [List.mem_singleton] at hl
    subst hl
    exact hacc c (List.mem_reverse.mp hc)
  | case3 rest acc ih =>
    rw [splitlinesAux.eq_2]
    intro l hl c hc
    rcases List.mem_cons.mp hl with h1 | h2
    · subst h1
      exact hacc c (List.mem_reverse.mp hc)
    · exact ih (by intro x hx; cases hx) l h2 c hc
  | case4 c rest acc hside hbr ih =>
    rw [splitlinesAux.eq_3 acc c rest hside, if_pos hbr]
    intro l hl x hx
    rcases List.mem_cons.mp hl with h1 | h2
    · subst h1
      exact hacc x (List.mem_reverse.mp hx)
    · exact ih (by intro y hy; cases hy) l h2 x hx
  | case5 c rest acc hside hbr ih =>
    rw [splitlinesAux.eq_3 acc c rest hside, if_neg (by simp [hbr])]
    intro l hl x hx
    refine ih ?_ l hl x hx
    intro y hy
    rcases List.mem_cons.mp hy with h1 | h2
    · subst h1
      exact Bool.not_eq_true _ ▸ hbr
    · exact hacc y h2

/-- Every line produced by `splitlines` is free of line-break characters. -/
theorem mem_splitlines_breakFree (t : List Char) :
    ∀ l ∈ splitlines t, ∀ c ∈ l, isLineBreak c = false :=
  splitlinesAux_breakFree t [] (by intro c hc; cases hc)

theorem mem_of_mem_strip {c : Char} {l : List Char} (h : c ∈ strip l) :
    c ∈ l := by
  unfold strip rstrip lstrip at h
  have h1 : c ∈ List.dropWhile isPySpace l :=
    ( List.rdropWhile_prefix isPySpace (List.dropWhile isPySpace l)).sublist.mem h
  exact (List.dropWhile_sublist isPySpace).mem h1

theorem dropWhile_of_eq_self {p : Char → Bool} {y : List Char}
    (hy : List.dropWhile p y = y) (s : List Char) (hs : s <+: y) :
    List.dropWhile p s = s := by
  match s, hs with
  | [], _ => rfl
  | d :: s', hs =>
    obtain ⟨t, ht⟩ := hs
    have hd : p d = false := by
      cases hpd : p d
      · rfl
      · exfalso
        rw [← ht, List.cons_append, List.dropWhile_cons_of_pos hpd] at hy
        have hlen := congrArg List.length hy
        have hle : (List.dropWhile p (s' ++ t)).length ≤ (s' ++ t).length :=
          (List.dropWhile_sublist p).length_le
        rw [List.length_cons] at hlen
        omega
    rw [List.dropWhile_cons_of_neg (by simp [hd])]

theorem strip_idem (l : List Char) : strip (strip l) = strip l := by
  unfold strip rstrip lstrip
  have hdw : List.dropWhile isPySpace (List.dropWhile isPySpace l) =
      List.dropWhile isPySpace l := List.dropWhile_idempotent _ _
  have hpre := List.rdropWhile_prefix isPySpace (List.dropWhile isPySpace l)
  rw [dropWhile_of_eq_self hdw _ hpre]
  exact List.rdropWhile_idempotent _ _

theorem map_self_of_mem {α : Type} {f : α → α} {l : List α}
    (h : ∀ a ∈ l, f a = a) : l.map f = l := by
  rw [List.map_congr_left h]
  simp

/-! ## Helper lemmas: the branches of `main` -/

theorem main_eq_nochange (cfg : Config) (text : List Char)
    (file0 : Option (List Char)) (mo : Bool)
    (h : (get_last_snapshot file0).2 = some (make_hash (normalize_text text))) :
    main cfg text file0 mo =
      ⟨false, some (("No change").toList), file0, none, none⟩ := by
  simp only [main]
  rw [if_neg (not_not_intro h)]

theorem main_changed_of_ne (cfg : Config) (text : List Char)
    (file0 : Option (List Char)) (mo : Bool)
    (h : (get_last_snapshot file0).2 ≠ some (make_hash (normalize_text text))) :
    (main cfg text file0 mo).changed = true := by
  simp only [main]
  rw [if_pos h]
  cases mo <;> rfl

theorem main_mailfail (cfg : Config) (text : List Char)
    (file0 : Option (List Char))
    (h : (get_last_snapshot file0).2 ≠ some (make_hash (normalize_text text))) :
    main cfg text file0 false =
      ⟨true, none, file0, none,
        some (generate_diff (get_last_snapshot file0).1 (normalize_text text))⟩ := by
  simp only [main]
  rw [if_pos h]
  rfl

theorem main_file_of_ne_ok (cfg : Config) (text : List Char)
    (file0 : Option (List Char))
    (h : (get_last_snapshot file0).2 ≠ some (make_hash (normalize_text text))) :
    (main cfg text file0 true).file = some (normalize_text text) := by
  simp only [main]
  rw [if_pos h]
  rfl

theorem main_diff_of_ne (cfg : Config) (text : List Char)
    (file0 : Option (List Char)) (mo : Bool)
    (h : (get_last_snapshot file0).2 ≠ some (make_hash (normalize_text text))) :
    (main cfg text file0 mo).diff =
      some (generate_diff (get_last_snapshot file0).1 (normalize_text text)) := by
  simp only [main]
  rw [if_pos h]
  cases mo <;> rfl

theorem main_changed_cases (cfg : Config) (text : List Char)
    (file0 : Option (List Char)) (mo : Bool) :
    (main cfg text file0 mo).changed = true ↔
      (get_last_snapshot file0).2 ≠ some (make_hash (normalize_text text)) := by
  by_cases h : (get_last_snapshot file0).2 = some (make_hash (normalize_text text))
  · rw [main_eq_nochange cfg text file0 mo h]
    simp [h]
  · rw [main_changed_of_ne cfg text file0 mo h]
    simp [h]

/-! ## Helper lemmas: diffs against an absent old side -/

theorem matching_blocks_nil_left (bl : List (List Char)) :
    get_matching_blocks (mkSM [] bl) = [(0, bl.length, 0)] := rfl

theorem opcodes_nil_left (bl : List (List Char)) (hbl : bl ≠ []) :
    get_opcodes (mkSM [] bl) = [Op.mk .insert 0 0 0 bl.length] := by
  have hpos : 0 < bl.length := List.length_pos.mpr hbl
  rw [get_opcodes, matching_blocks_nil_left]
  simp [opcodesLoop, hpos]

theorem grouped_nil_left (bl : List (List Char)) (hbl : bl ≠ []) :
    get_grouped_opcodes (mkSM [] bl) 3 = [[Op.mk .insert 0 0 0 bl.length]] := by
  rw [get_grouped_opcodes, opcodes_nil_left bl hbl]
  simp [adjustFirst, adjustLast, groupLoop]

/-- A unified diff against an empty old side is the two file headers, one
`@@` hunk header, and every new line marked as an addition. -/
theorem unifiedDiff_nil_left (bl : List (List Char)) (hbl : bl ≠ []) :
    unifiedDiff [] bl =
      ("--- ").toList :: ("+++ ").toList ::
        hunkHeader [Op.mk .insert 0 0 0 bl.length] ::
          bl.map (fun l => '+' :: l) := by
  simp only [unifiedDiff, grouped_nil_left bl hbl]
  simp [emitOp, slice]

theorem plus_mem_diffLines_nil (new : List Char) :
    ∀ l ∈ splitlines new, '+' :: l ∈ diffLines none new := by
  intro l hl
  have hbl : splitlines new ≠ [] := by
    intro hcon
    rw [hcon] at hl
    cases hl
  unfold diffLines oldLines
  rw [unifiedDiff_nil_left (splitlines new) hbl]
  refine List.mem_cons_of_mem _ (List.mem_cons_of_mem _ (List.mem_cons_of_mem _ ?_))
  exact List.mem_map.mpr ⟨l, hl, rfl⟩

/-! ## The claims -/

/-- C1: the change detector reports "unchanged" iff the SHA-256 digest of
the current normalized content equals the digest recomputed from the stored
snapshot content; when the digests differ, `main` takes the
"change detected" branch. -/
theorem claim_C1_unchanged_iff_digests_equal (cfg : Config)
    (text stored : List Char) (mo : Bool) :
    ((main cfg text (some stored) mo).changed = false ↔
      make_hash (normalize_text text) = make_hash stored) ∧
    ((main cfg text (some stored) mo).changed = true ↔
      make_hash (normalize_text text) ≠ make_hash stored) := by
  have hiff := main_changed_cases cfg text (some stored) mo
  have hsnap : (get_last_snapshot (some stored)).2 = some (make_hash stored) := rfl
  rw [hsnap] at hiff
  constructor
  · rw [← Bool.not_eq_true, hiff]
    simp [eq_comm]
  · rw [hiff]
    simp [eq_comm]

/-- C2: on a first run (no snapshot file), `get_last_snapshot` returns
`(None, None)` rather than raising, `main` treats the run as a change, and
the diff is computed against an empty line sequence so every line of the
current content appears as an addition. -/
theorem claim_C2_first_run (cfg : Config) (text : List Char) (mo : Bool) :
    get_last_snapshot none = (none, none) ∧
    (main cfg text none mo).changed = true ∧
    (main cfg text none mo).diff =
      some (generate_diff none (normalize_text text)) ∧
    ∀ l ∈ splitlines (normalize_text text),
      '+' :: l ∈ diffLines none (normalize_text text) := by
  have hne : (get_last_snapshot (none : Option (List Char))).2 ≠
      some (make_hash (normalize_text text)) := by
    simp [get_last_snapshot]
  exact ⟨rfl, main_changed_of_ne cfg text none mo hne,
    main_diff_of_ne cfg text none mo hne, plus_mem_diffLines_nil _⟩

theorem claim_C2_first_run_witness :
    get_last_snapshot none = (none, none) ∧
    (main cfgA ['x'] none true).changed = true ∧
    '+' :: ['x'] ∈ diffLines none (normalize_text ['x']) := by
  have h := claim_C2_first_run cfgA ['x'] true
  exact ⟨h.1, h.2.1, h.2.2.2 ['x'] (by decide)⟩

/-- C3: when a change is detected and `send_email` raises, `save_snapshot`
is never executed: the snapshot file keeps its prior state, no email is
sent, and the final status line is never printed. -/
theorem claim_C3_no_save_on_failed_send (cfg : Config) (text : List Char)
    (file0 : Option (List Char))
    (hch : (main cfg text file0 false).changed = true) :
    (main cfg text file0 false).file = file0 ∧
    (main cfg text file0 false).sent = none ∧
    (main cfg text file0 false).printed = none := by
  have h := (main_changed_cases cfg text file0 false).mp hch
  rw [main_mailfail cfg text file0 h]
  exact ⟨rfl, rfl, rfl⟩

theorem claim_C3_no_save_on_failed_send_witness :
    (main cfgA ['a'] none false).changed = true ∧
    (main cfgA ['a'] none false).file = none :=
  ⟨rfl, (claim_C3_no_save_on_failed_send cfgA ['a'] none rfl).1⟩

/-- C4, counterexample: a run that detects a change but whose notification
send fails does NOT overwrite the snapshot file with the new normalized
content — refuting "the snapshot file is overwritten ... even when the
notification send fails". -/
theorem claim_C4_counterexample :
    (main cfgA ['a'] none false).changed = true ∧
    (main cfgA ['a'] none false).file ≠ some (normalize_text ['a']) := by
  refine ⟨rfl, ?_⟩
  intro hcontra
  exact Option.noConfusion hcontra

/-- C4, amended: the snapshot write happens only when the notification
succeeds: on a detected change with a successful send the file is
overwritten with the new normalized content, while on a failed send the
file keeps its prior state. -/
theorem claim_C4_amended_save_only_on_success (cfg : Config)
    (text : List Char) (file0 : Option (List Char))
    (hch : (main cfg text file0 true).changed = true) :
    (main cfg text file0 true).file = some (normalize_text text) ∧
    (main cfg text file0 false).file = file0 := by
  have h := (main_changed_cases cfg text file0 true).mp hch
  refine ⟨main_file_of_ne_ok cfg text file0 h, ?_⟩
  rw [main_mailfail cfg text file0 h]

theorem claim_C4_amended_save_only_on_success_witness :
    (main cfgA ['a'] none true).changed = true ∧
    (main cfgA ['a'] none true).file = some (normalize_text ['a']) ∧
    (main cfgA ['a'] none false).file = none := by
  have h := claim_C4_amended_save_only_on_success cfgA ['a'] none rfl
  exact ⟨rfl, h.1, h.2⟩

/-- C5: when the digests match, `main` prints "No change" and does nothing
further — the snapshot file is not written, no diff is generated and no
email is sent; in particular a second run over an unchanged source leaves
the snapshot file's content identical. -/
theorem claim_C5_unchanged_no_effects (cfg : Config) (text : List Char)
    (file0 : Option (List Char)) (mo : Bool)
    (hmatch : (get_last_snapshot file0).2 =
      some (make_hash (normalize_text text))) :
    main cfg text file0 mo =
      ⟨false, some (("No change").toList), file0, none, none⟩ ∧
    (main cfg text (some (normalize_text text)) mo).file =
      some (normalize_text text) := by
  refine ⟨main_eq_nochange cfg text file0 mo hmatch, ?_⟩
  rw [main_eq_nochange cfg text (some (normalize_text text)) mo rfl]

theorem claim_C5_unchanged_no_effects_witness :
    (get_last_snapshot (some ['h', 'i'])).2 =
      some (make_hash (normalize_text ['h', 'i'])) ∧
    main cfgA ['h', 'i'] (some ['h', 'i']) true =
      ⟨false, some (("No change").toList), some ['h', 'i'], none, none⟩ :=
  ⟨rfl, (claim_C5_unchanged_no_effects cfgA ['h', 'i'] (some ['h', 'i'])
    true rfl).1⟩

/-- C6: normalization is idempotent — normalizing already-normalized text
returns it unchanged. -/
theorem claim_C6_normalize_idempotent (text : List Char) :
    normalize_text (normalize_text text) = normalize_text text := by
  simp only [normalize_text]
  set F := ((splitlines text).map (fun line => strip line)).filter
    (fun ln => decide (ln ≠ [])) with hF
  have hmem : ∀ a ∈ F, a ≠ [] ∧ (∀ c ∈ a, isLineBreak c = false) ∧
      strip a = a := by
    intro a ha
    rw [hF, List.mem_filter] at ha
    obtain ⟨hmap, hne⟩ := ha
    obtain ⟨y, hy, hya⟩ := List.mem_map.mp hmap
    constructor
    · simpa using hne
    constructor
    · intro ch hch
      have hchy : ch ∈ y := by
        rw [← hya] at hch
        exact mem_of_mem_strip hch
      exact mem_splitlines_breakFree text y hy ch hchy
    · rw [← hya]
      exact strip_idem y
  have h1 : splitlines (List.intercalate ['\u000a'] F) = F :=
    splitlines_intercalate F (fun l hl => ⟨(hmem l hl).1, (hmem l hl).2.1⟩)
  rw [h1]
  have h2 : F.map (fun line => strip line) = F :=
    map_self_of_mem (fun a ha => (hmem a ha).2.2)
  rw [h2]
  rw [List.filter_eq_self.mpr (fun a ha => by simp [(hmem a ha).1])]

/-- C7: `normalize_text` equals the reference transform described by the
spec — split into lines, strip each line, discard lines that become empty,
rejoin with a single newline. -/
theorem claim_C7_normalize_refines_spec (text : List Char) :
    normalize_text text = normalizeReference text := rfl

/-- C8: for old content `"a\nb\nc"` and new content `"a\nx\nc"`, the
generated unified diff marks exactly line 2 as changed — one deletion of
`"b"`, one addition of `"x"` — with `"a"` and `"c"` as context lines. -/
theorem claim_C8_concrete_diff :
    diffLines (some ("a\nb\nc").toList) ("a\nx\nc").toList =
      [("--- ").toList, ("+++ ").toList, ("@@ -1,3 +1,3 @@").toList,
       (" a").toList, ("-b").toList, ("+x").toList, (" c").toList] ∧
    generate_diff (some ("a\nb\nc").toList) ("a\nx\nc").toList =
      ("--- \n+++ \n@@ -1,3 +1,3 @@\n a\n-b\n+x\n c").toList := by
  constructor <;> decide

/-- C9: `send_email` composes a message carrying the configured sender and
recipient and the given subject; its body is the summary followed by the
diff under the `--- DIFF ---` heading when a non-empty diff is supplied,
and the summary alone when no diff is supplied. -/
theorem claim_C9_email_composition (cfg : Config)
    (subject body d : List Char) :
    (send_email cfg subject body (some d)).msgFrom = cfg.from_email ∧
    (send_email cfg subject body (some d)).msgTo = cfg.to_email ∧
    (send_email cfg subject body (some d)).msgSubject = subject ∧
    (d ≠ [] → (send_email cfg subject body (some d)).msgContent =
      body ++ ("\n\n--- DIFF ---\n").toList ++ d) ∧
    (send_email cfg subject body none).msgContent = body ∧
    (send_email cfg subject body none).msgSubject = subject := by
  refine ⟨rfl, rfl, rfl, ?_, rfl, rfl⟩
  intro hd
  simp only [send_email]
  rw [if_neg hd]

theorem claim_C9_email_composition_witness :
    (['x'] : List Char) ≠ [] ∧
    (send_email cfgA ['s'] ['b'] (some ['x'])).msgContent =
      ['b'] ++ ("\n\n--- DIFF ---\n").toList ++ ['x'] := by
  have h9 := claim_C9_email_composition cfgA ['s'] ['b'] ['x']
  exact ⟨by decide, h9.2.2.2.1 (by decide)⟩

/-- C10: `generate_diff` treats an empty-string old content exactly like an
absent (`None`) old content — both give an empty old line sequence — and
every line of the new content appears as an addition. -/
theorem claim_C10_empty_old_as_none (new : List Char) :
    generate_diff (some []) new = generate_diff none new ∧
    diffLines (some []) new = diffLines none new ∧
    ∀ l ∈ splitlines new, '+' :: l ∈ diffLines (some []) new := by
  refine ⟨rfl, rfl, ?_⟩
  intro l hl
  exact plus_mem_diffLines_nil new l hl

theorem claim_C10_empty_old_as_none_witness :
    generate_diff (some []) ['q'] = generate_diff none ['q'] ∧
    '+' :: ['q'] ∈ diffLines (some []) ['q'] := by
  have h := claim_C10_empty_old_as_none ['q']
  exact ⟨h.1, h.2.2 ['q'] (by decide)⟩

end PageWatcher
